import Mathlib

/-!
Verification development for the buzzline streaming-consumer repository
(`consumers/project_consumer_kabore.py` and its near-duplicate
`consumers/csv_consumer_case.py`).

The Python code is shallowly embedded: Python floats are modelled as
rationals (`ℚ`), Python strings as `List Char`, and a `collections.deque`
with `maxlen = n` as a `List` together with the push operation
`dequePush n`.  Fallible operations are modelled with `Option`.
The CPython library functions `datetime.fromisoformat` and
`float(str)` are external to the repository; they enter the model as
explicit function parameters (`fi`) or as an `Option`-valued payload,
so every theorem quantifying over them holds for the real library
behaviour.
-/

namespace Buzzline

/-- One `append` on a Python `collections.deque` with `maxlen = n`
(as used for `TS`, `SENT`, `ROLL`, `ROLL_AVG` and `CAT_WIN`):
the new element goes to the right end and, if the length would exceed
`n`, elements are discarded from the left end. -/
def dequePush {α : Type} (n : Nat) (xs : List α) (x : α) : List α :=
  ((xs ++ [x]).drop ((xs ++ [x]).length - n))

/-- Pushing a whole list of items, one by one, into an initially empty
deque of capacity `n`. -/
def pushAll {α : Type} (n : Nat) (xs : List α) : List α :=
  xs.foldl (dequePush n) []

/-- The `ROLL`/`ROLL_AVG` update step of `process_one`:
`ROLL.append(v); ROLL_AVG.append(sum(ROLL) / len(ROLL))`.
Returns the new rolling window together with the value appended to
`ROLL_AVG`.  (`W` is `ROLL_WIN`, the rolling window capacity.) -/
def observeRoll (W : Nat) (roll : List ℚ) (v : ℚ) : List ℚ × ℚ :=
  let roll2 := dequePush W roll v
  (roll2, roll2.sum / (roll2.length : ℚ))

/-- The rolling window `ROLL` after observing the values `vs` in order,
starting from the empty window. -/
def rollAfter (W : Nat) (vs : List ℚ) : List ℚ :=
  vs.foldl (fun r v => (observeRoll W r v).1) []

/-- The `ROLL_AVG` value appended by `process_one` at the step that
pushed the last element of `vs`. -/
def avgAppended (W : Nat) (vs : List ℚ) : ℚ :=
  (rollAfter W vs).sum / ((rollAfter W vs).length : ℚ)

/-- A Python `datetime`: the six calendar/time fields plus an optional
UTC offset in minutes (`none` models a naive datetime, `some 0` one
carrying `timezone.utc`). -/
structure PyDateTime where
  year : Nat
  month : Nat
  day : Nat
  hour : Nat
  minute : Nat
  second : Nat
  tzOffsetMin : Option Int
deriving DecidableEq, Repr

def isLeap (y : Nat) : Bool :=
  (y % 4 == 0 && y % 100 != 0) || (y % 400 == 0)

def daysInMonth (y m : Nat) : Nat :=
  if m = 2 then (if isLeap y then 29 else 28)
  else if m = 4 ∨ m = 6 ∨ m = 9 ∨ m = 11 then 30
  else 31

/-- Numeric value of a two-digit field. -/
def num2 (a b : Char) : Nat :=
  10 * (a.toNat - '0'.toNat) + (b.toNat - '0'.toNat)

/-- Numeric value of a four-digit field. -/
def num4 (a b c d : Char) : Nat :=
  1000 * (a.toNat - '0'.toNat) + 100 * (b.toNat - '0'.toNat) +
    10 * (c.toNat - '0'.toNat) + (d.toNat - '0'.toNat)

/-- CPython `datetime.strptime(s, "%Y-%m-%d" ++ sep ++ "%H:%M:%S")`
(with `sep` the literal separator `'T'` or `' '`), modelled at the
zero-padded inputs that occur in this development: it succeeds iff `s`
is exactly `YYYY-MM-DD sep HH:MM:SS` with all-digit fields in the
ranges `datetime(...)` accepts (year 1..9999, month 1..12, day within
the month, hour ≤ 23, minute ≤ 59, second ≤ 59), and returns a naive
datetime.  (CPython additionally accepts some non-zero-padded fields;
no claim below concerns such inputs.) -/
def strptimeFixed (sep : Char) (s : List Char) : Option PyDateTime :=
  match s with
  | [y1, y2, y3, y4, c1, m1, m2, c2, d1, d2, c3,
     h1, h2, c4, n1, n2, c5, s1, s2] =>
    if ([y1, y2, y3, y4, m1, m2, d1, d2, h1, h2, n1, n2, s1, s2].all
          Char.isDigit)
        && c1 = '-' && c2 = '-' && c3 = sep && c4 = ':' && c5 = ':' then
      let y := num4 y1 y2 y3 y4
      let mo := num2 m1 m2
      let d := num2 d1 d2
      let h := num2 h1 h2
      let mi := num2 n1 n2
      let se := num2 s1 s2
      if 1 ≤ y ∧ y ≤ 9999 ∧ 1 ≤ mo ∧ mo ≤ 12 ∧ 1 ≤ d ∧
          d ≤ daysInMonth y mo ∧ h ≤ 23 ∧ mi ≤ 59 ∧ se ≤ 59 then
        some ⟨y, mo, d, h, mi, se, none⟩
      else none
    else none
  | _ => none

/-- Model of `s.endswith("Z")` on the character-list form of a string. -/
def endsWithZ (s : List Char) : Bool :=
  s.getLast? == some 'Z'

/-- Model of `s.replace("Z", "+00:00")`: every `'Z'` becomes `+00:00`. -/
def replaceZ (s : List Char) : List Char :=
  (s.map (fun c => if c = 'Z' then ['+', '0', '0', ':', '0', '0'] else [c])).flatten

/-- Model of `dt if dt.tzinfo else dt.replace(tzinfo=timezone.utc)`. -/
def utcIfNaive (dt : PyDateTime) : PyDateTime :=
  if dt.tzOffsetMin = none then { dt with tzOffsetMin := some 0 } else dt

/-- The body of the `try:` block of `parse_ts` (string case): the three
parsing branches, any exception modelled as `none`.  The parameter `fi`
models the CPython library function `datetime.fromisoformat`, external
to the repository. -/
def tryBranches (fi : List Char → Option PyDateTime) (s : List Char) :
    Option PyDateTime :=
  if endsWithZ s then fi (replaceZ s)
  else if s.contains ' ' && !(s.contains 'T') then
    (strptimeFixed ' ' s).map (fun dt => { dt with tzOffsetMin := some 0 })
  else (fi s).map utcIfNaive

/-- Model of `parse_ts` on a string input: try the three branches; on any
exception fall back to
`datetime.strptime(s[:19], "%Y-%m-%dT%H:%M:%S").replace(tzinfo=timezone.utc)`.
(The `datetime`-instance fast path of the Python function is not
exercised by any claim.) -/
def parse_ts (fi : List Char → Option PyDateTime) (s : List Char) :
    Option PyDateTime :=
  match tryBranches fi s with
  | some dt => some dt
  | none =>
    (strptimeFixed 'T' (s.take 19)).map
      (fun dt => { dt with tzOffsetMin := some 0 })

/-- The `sentiment` field value as seen by `float(s)`: a JSON number
(always converts) or a string that `float` either parses to a rational
or rejects.  The string-to-float parse itself is a CPython library
function, modelled by the `Option` payload. -/
inductive PyVal
  | numVal (q : ℚ)
  | strVal (conv : Option ℚ)
deriving DecidableEq

/-- Model of `float(s)`, with `none` for a raised `ValueError`. -/
def pyFloat : PyVal → Option ℚ
  | .numVal q => some q
  | .strVal conv => conv

/-- A decoded JSON message as `process_one` receives it; `none` fields
model `obj.get(...)` returning `None` (field absent or JSON null). -/
structure Msg where
  timestamp : Option (List Char)
  sentiment : Option PyVal
  category : Option String
deriving DecidableEq

/-- The window capacities read from the environment at session start:
`HIST_SIZE`, `ROLL_WIN`, `BAR_SIZE`. -/
structure EngineConfig where
  histSize : Nat
  rollWin : Nat
  barSize : Nat
deriving DecidableEq

/-- The module-level mutable state of `project_consumer_kabore.py`:
the five bounded deques plus the idle-watchdog variables. -/
structure EngineState where
  ts : List PyDateTime
  sent : List ℚ
  roll : List ℚ
  rollAvg : List ℚ
  catWin : List String
  lastReal : ℚ
  seenReal : Bool
deriving DecidableEq

/-- The normalization part of `process_one`: field presence check, then
`parse_ts(ts)` and `float(s)`; `none` iff the record is skipped or an
exception is raised before any window is touched. -/
def normalizeMsg (fi : List Char → Option PyDateTime) (obj : Msg) :
    Option (PyDateTime × ℚ) :=
  match obj.timestamp, obj.sentiment with
  | some tsv, some sv =>
    match parse_ts fi tsv, pyFloat sv with
    | some t, some v => some (t, v)
    | _, _ => none
  | _, _ => none

/-- Model of `process_one(obj, is_real)`: `now` is the value `time.perf_counter()`
returns during this call, `st` the global state before it. -/
def process_one (cfg : EngineConfig) (fi : List Char → Option PyDateTime)
    (obj : Msg) (isReal : Bool) (now : ℚ) (st : EngineState) : EngineState :=
  match normalizeMsg fi obj with
  | none => st
  | some (t, v) =>
    let ts2 := dequePush cfg.histSize st.ts t
    let sent2 := dequePush cfg.histSize st.sent v
    let o := observeRoll cfg.rollWin st.roll v
    if o.1.length = 0 then
      -- `sum(ROLL)/len(ROLL)` raises ZeroDivisionError (possible only when
      -- ROLL_WIN = 0); the handler catches it after TS, SENT and ROLL were
      -- already appended, so only part of the state is updated.
      { st with ts := ts2, sent := sent2, roll := o.1 }
    else
      { ts := ts2
        sent := sent2
        roll := o.1
        rollAvg := dequePush cfg.histSize st.rollAvg o.2
        catWin := dequePush cfg.barSize st.catWin (obj.category.getD "other")
        lastReal := if isReal then now else st.lastReal
        seenReal := st.seenReal || isReal }

/-- One iteration of the `while True` body of `kafka_loop`: `batch` is
the list of records this `poll` cycle yielded (after `normalize_value`),
`fake` the message `synth_message()` would produce, `fakeIdle` the
`PROJECT_FAKE_IF_IDLE_SECONDS` setting and `now` the current
`time.perf_counter()` value. -/
def kafkaIter (cfg : EngineConfig) (fi : List Char → Option PyDateTime)
    (fakeIdle : Nat) (fake : Msg) (now : ℚ) (batch : List Msg)
    (st : EngineState) : EngineState :=
  if batch.isEmpty then
    if 0 < fakeIdle ∧ (fakeIdle : ℚ) ≤ now - st.lastReal then
      process_one cfg fi fake false now st
    else st
  else
    batch.foldl (fun s m => process_one cfg fi m true now s) st

/-- One iteration of the tail loop of `file_loop`: `line = none` models
`readline` returning no data, `line = some none` a line rejected by
`json.loads` ("Bad line skipped"), `line = some (some m)` a parsed
record. -/
def fileTailIter (cfg : EngineConfig) (fi : List Char → Option PyDateTime)
    (fakeIdle : Nat) (fake : Msg) (now : ℚ) (line : Option (Option Msg))
    (st : EngineState) : EngineState :=
  match line with
  | none =>
    if 0 < fakeIdle ∧ (fakeIdle : ℚ) ≤ now - st.lastReal then
      process_one cfg fi fake false now st
    else st
  | some none => st
  | some (some m) => process_one cfg fi m true now st

/-- One iteration of the loop in `file_loop`'s `FileNotFoundError`
handler ("Still show synthetic stream so the project isn't empty"):
a synthetic sample is processed unconditionally — the idle threshold
`_fakeIdle` is in scope but never consulted on this path. -/
def fileMissingIter (cfg : EngineConfig) (fi : List Char → Option PyDateTime)
    (_fakeIdle : Nat) (fake : Msg) (now : ℚ) (st : EngineState) : EngineState :=
  process_one cfg fi fake false now st

/-- Model of `_should_redraw()`: target redraw frequency `fps` (the `FPS`
global), the `_last_draw` global passed and returned explicitly;
`min_interval = 1.0 / max(FPS, 1e-6)`. -/
def should_redraw (fps now lastDraw : ℚ) : Bool × ℚ :=
  let minInterval : ℚ := 1 / max fps (1 / 1000000)
  if minInterval ≤ now - lastDraw then (true, now) else (false, lastDraw)

/-- The keys of `collections.Counter(xs)` in dictionary order, i.e. in
order of first occurrence in `xs`. -/
def firstOccKeys (xs : List String) : List String :=
  xs.foldl (fun acc x => if x ∈ acc then acc else acc ++ [x]) []

/-- Model of `Counter(xs).items()`: each distinct key with its count, listed in
first-occurrence order. -/
def counterItems (xs : List String) : List (String × Nat) :=
  (firstOccKeys xs).map (fun k => (k, xs.count k))

/-- Stable insertion step of a descending-by-count sort: the inserted
entry (which comes from earlier in the original item list) is placed
before entries of equal count. -/
def insertByCount (p : String × Nat) :
    List (String × Nat) → List (String × Nat)
  | [] => [p]
  | q :: qs => if q.2 ≤ p.2 then p :: q :: qs else q :: insertByCount p qs

/-- Model of `sorted(items, key=itemgetter(1), reverse=True)` — the stable
descending sort `heapq.nlargest` (hence `Counter.most_common`) is
documented to agree with. -/
def sortByCountDesc (l : List (String × Nat)) : List (String × Nat) :=
  l.foldr insertByCount []

/-- Model of `Counter(xs).most_common(n)`. -/
def most_common (n : Nat) (xs : List String) : List (String × Nat) :=
  (sortByCountDesc (counterItems xs)).take n

/-- Model of `_top_n_counts()` over the category window `catWin`, with the
`["(none)"]` / `[0]` sentinels for the empty case. -/
def top_n_counts (topn : Nat) (catWin : List String) :
    List String × List Nat :=
  let most := most_common topn catWin
  let labels := if most.isEmpty then ["(none)"] else most.map Prod.fst
  let values := if most.isEmpty then [0] else most.map Prod.snd
  (labels, values)

/-- Python-style `max(list)`: the maximal element (leftmost among
equals); totalised with default `0` for the empty list, which raises in
Python and is unreachable under the `W ≥ 1` hypotheses used below. -/
def maxQ : List ℚ → ℚ
  | [] => 0
  | x :: xs => xs.foldl max x

/-- Python-style `min(list)`, totalised like `maxQ`. -/
def minQ : List ℚ → ℚ
  | [] => 0
  | x :: xs => xs.foldl min x

/-- Modelled from the spec: no `is_stalled` function exists anywhere in
the repository's source files — the stall predicate of spec §4.3 has no
implementation.  Following the spec's words: "defined only when the
window is full (`len == W`); otherwise always `false` (insufficient
data — not a stall).  When full, stalled ⇔
`(max(contents) - min(contents)) ≤ threshold`". -/
def is_stalled (W : Nat) (window : List ℚ) (threshold : ℚ) : Bool :=
  if window.length = W then decide (maxQ window - minQ window ≤ threshold)
  else false

/-- Index of the first occurrence of `a` in a list (the position at
which a category was first observed within the current window
contents). -/
def firstIdx (a : String) : List String → Nat
  | [] => 0
  | x :: xs => if x = a then 0 else firstIdx a xs + 1

/-- A concrete well-formed message (ISO timestamp with `Z` suffix,
numeric sentiment, explicit category), used to exercise the
definitions in witnesses. -/
def sampleMsg : Msg :=
  { timestamp := some "2025-01-11T18:15:00Z".data
    sentiment := some (.numVal (9/10))
    category := some "tech" }

/-- Variant of `sampleMsg` without its optional category field. -/
def sampleMsgNoCat : Msg :=
  { timestamp := some "2025-01-11T18:15:00Z".data
    sentiment := some (.numVal (9/10))
    category := none }

/-- A message missing the required sentiment field. -/
def sampleMsgNoSent : Msg :=
  { timestamp := some "2025-01-11T18:15:00Z".data
    sentiment := none
    category := some "tech" }

/-- A concrete synthetic message of the shape `synth_message()`
produces (space-separated naive UTC timestamp, category drawn from the
fixed `CATEGORIES` set). -/
def sampleSynth : Msg :=
  { timestamp := some "2025-01-11 18:15:00".data
    sentiment := some (.numVal (1/2))
    category := some "humor" }

/-- The engine state at session start: empty windows, idle clock 0. -/
def emptyState : EngineState :=
  { ts := [], sent := [], roll := [], rollAvg := [], catWin := []
    lastReal := 0, seenReal := false }

/-- A `datetime.fromisoformat` stand-in that rejects every input; used
in witnesses to drive `parse_ts` into its fallback branch. -/
def fiNone : List Char → Option PyDateTime := fun _ => none

end Buzzline

namespace Buzzline

theorem dequePush_suffix {α : Type} (n : Nat) (vs : List α) (v : α) :
    dequePush n (vs.drop (vs.length - n)) v =
      (vs ++ [v]).drop ((vs ++ [v]).length - n) := by
  unfold dequePush
  rcases Nat.eq_zero_or_pos n with hn | hn
  · subst hn
    simp
  rcases Nat.lt_or_ge vs.length n with h | h
  · have h0 : vs.length - n = 0 := Nat.sub_eq_zero_of_le (Nat.le_of_lt h)
    simp [h0]
  · have hlen : (vs.drop (vs.length - n)).length = n := by
      rw [List.length_drop]
      omega
    have h1 : (vs.drop (vs.length - n) ++ [v]).length - n = 1 := by
      rw [List.length_append, hlen]
      simp
    have h2 : (vs ++ [v]).length - n = vs.length - n + 1 := by
      rw [List.length_append]
      simp only [List.length_singleton]
      omega
    rw [h1, h2]
    have hle : vs.length - n + 1 ≤ vs.length := by omega
    rw [List.drop_append_of_le_length hle]
    have hle2 : (1 : Nat) ≤ (vs.drop (vs.length - n)).length := by omega
    rw [List.drop_append_of_le_length hle2]
    rw [List.drop_drop]

/-- The contents of a bounded deque after pushing `xs` into an empty
deque are exactly the last `min |xs| n` elements of `xs`, in order. -/
theorem pushAll_eq_suffix {α : Type} (n : Nat) (xs : List α) :
    pushAll n xs = xs.drop (xs.length - n) := by
  induction xs using List.reverseRecOn with
  | nil => simp [pushAll]
  | append_singleton vs v ih =>
    have : pushAll n (vs ++ [v]) = dequePush n (pushAll n vs) v := by
      simp [pushAll]
    rw [this, ih, dequePush_suffix]

theorem rollAfter_eq_pushAll (W : Nat) (vs : List ℚ) :
    rollAfter W vs = pushAll W vs := rfl

/-- C1: after the k-th observed sentiment value, the `ROLL_AVG` value
appended by `process_one` equals the arithmetic mean of `v_1..v_k` when
`k ≤ W` (the rolling window size), and the mean of only the last `W`
values when `k > W`. -/
theorem C1_rolling_average_mean (W : Nat) (hW : 1 ≤ W) (vs : List ℚ)
    (_hvs : vs ≠ []) :
    avgAppended W vs =
      if vs.length ≤ W then vs.sum / (vs.length : ℚ)
      else (vs.drop (vs.length - W)).sum / (W : ℚ) := by
  unfold avgAppended
  rw [rollAfter_eq_pushAll, pushAll_eq_suffix]
  split
  next h =>
    have h0 : vs.length - W = 0 := by omega
    rw [h0]
    simp
  next h =>
    have hlen : (vs.drop (vs.length - W)).length = W := by
      rw [List.length_drop]
      omega
    rw [hlen]

theorem C1_rolling_average_mean_witness :
    (1 ≤ 2 ∧ ([1, 2, 3] : List ℚ) ≠ []) ∧
      avgAppended 2 [1, 2, 3] =
        (if ([1, 2, 3] : List ℚ).length ≤ 2
          then ([1, 2, 3] : List ℚ).sum / ((([1, 2, 3] : List ℚ).length) : ℚ)
          else (([1, 2, 3] : List ℚ).drop
              (([1, 2, 3] : List ℚ).length - 2)).sum / (2 : ℚ)) :=
  ⟨⟨by norm_num, by simp⟩,
    C1_rolling_average_mean 2 (by norm_num) [1, 2, 3] (by simp)⟩

/-- C2: every bounded window (`TS`, `SENT`, `ROLL`, `ROLL_AVG`,
`CAT_WIN`) of capacity `N ≥ 1`: after any sequence of pushes the length
is at most `N` (indeed `min(pushes, N)`), and the contents are exactly
the last `min(pushes, N)` pushed items in push order — strict FIFO
eviction of the oldest. -/
theorem C2_bounded_window_fifo {α : Type} (N : Nat) (hN : 1 ≤ N)
    (xs : List α) :
    (pushAll N xs).length ≤ N ∧
      (pushAll N xs).length = min xs.length N ∧
      pushAll N xs = xs.drop (xs.length - N) := by
  refine ⟨?_, ?_, pushAll_eq_suffix N xs⟩ <;>
    rw [pushAll_eq_suffix, List.length_drop] <;> omega

theorem C2_bounded_window_fifo_witness :
    1 ≤ 2 ∧
      ((pushAll 2 [10, 20, 30]).length ≤ 2 ∧
        (pushAll 2 [10, 20, 30]).length = min ([10, 20, 30] : List Nat).length 2 ∧
        pushAll 2 [10, 20, 30] =
          ([10, 20, 30] : List Nat).drop (([10, 20, 30] : List Nat).length - 2)) :=
  ⟨by norm_num, C2_bounded_window_fifo 2 (by norm_num) [10, 20, 30]⟩

/-- C4: the stall predicate is `false` whenever the rolling window
holds fewer than `W` values; when the window is full (`len = W`) it is
`true` iff `max(contents) - min(contents) ≤ threshold`; with `W = 3`
and threshold `0.2`, contents `[100.0, 100.05, 100.1]` are stalled and
`[100.0, 105.0, 95.0]` are not. -/
theorem C4_stall_predicate (W : Nat) (_hW : 1 ≤ W) (window : List ℚ)
    (threshold : ℚ) :
    (window.length < W → is_stalled W window threshold = false) ∧
      (window.length = W →
        (is_stalled W window threshold = true ↔
          maxQ window - minQ window ≤ threshold)) ∧
      is_stalled 3 [100, 100 + 5/100, 100 + 1/10] (2/10) = true ∧
      is_stalled 3 [100, 105, 95] (2/10) = false := by
  refine ⟨?_, ?_, ?_, ?_⟩
  · intro h
    unfold is_stalled
    simp [Nat.ne_of_lt h]
  · intro h
    unfold is_stalled
    simp [h]
  · unfold is_stalled maxQ minQ
    norm_num [max_def, min_def]
  · unfold is_stalled maxQ minQ
    norm_num [max_def, min_def]

theorem C4_stall_predicate_witness :
    (1 ≤ 3 ∧ ([1, 2] : List ℚ).length < 3) ∧
      is_stalled 3 [1, 2] (2/10) = false :=
  ⟨⟨by norm_num, by norm_num⟩,
    (C4_stall_predicate 3 (by norm_num) [1, 2] (2/10)).1 (by norm_num)⟩

/-- C6 (amended): `_should_redraw` returns `true` and sets `_last_draw`
to `now` iff `now - last_draw ≥ 1 / max(F, 1e-6)`, and otherwise
returns `false` leaving the state unchanged; the bound coincides with
the claimed `1/F` exactly when `F ≥ 1e-6`. -/
theorem C6_render_scheduler (fps now lastDraw : ℚ) :
    (should_redraw fps now lastDraw =
        if 1 / max fps (1/1000000) ≤ now - lastDraw then (true, now)
        else (false, lastDraw)) ∧
      (1/1000000 ≤ fps → 1 / max fps (1/1000000) = 1 / fps) := by
  constructor
  · rfl
  · intro h
    rw [max_eq_left h]

/-- C6 counterexample: with target frequency `F = 10⁻⁷` (a positive
frequency below the code's `1e-6` clamp), `now = 2·10⁶` and
`last_draw = 0`, `_should_redraw` returns `true` although
`now - last_draw < 1/F`, contradicting the claimed "true iff
`now - last_render_time ≥ 1/F`". -/
theorem C6_render_scheduler_counterexample :
    (should_redraw (1/10000000) 2000000 0).1 = true ∧
      ¬ ((1 : ℚ) / (1/10000000) ≤ 2000000 - 0) := by
  constructor
  · unfold should_redraw
    norm_num [max_def]
  · norm_num

/-- With a positive rolling capacity the window is non-empty right
after the push, so `sum(ROLL)/len(ROLL)` cannot raise
`ZeroDivisionError`. -/
theorem observeRoll_fst_length_ne_zero (W : Nat) (hW : 1 ≤ W)
    (roll : List ℚ) (v : ℚ) :
    ¬ (observeRoll W roll v).1.length = 0 := by
  unfold observeRoll dequePush
  simp only [List.length_drop, List.length_append, List.length_singleton]
  omega

/-- C7: `process_one` on a synthetic sample (`is_real = False`) never
changes `_last_real_msg_monotonic`; on a real sample it sets it to the
current time exactly when normalization succeeds, and leaves it
unchanged otherwise. -/
theorem C7_last_real_update (cfg : EngineConfig) (hW : 1 ≤ cfg.rollWin)
    (fi : List Char → Option PyDateTime) (obj : Msg) (now : ℚ)
    (st : EngineState) :
    (process_one cfg fi obj false now st).lastReal = st.lastReal ∧
      (process_one cfg fi obj true now st).lastReal =
        (if (normalizeMsg fi obj).isSome then now else st.lastReal) := by
  cases h : normalizeMsg fi obj with
  | none => simp [process_one, h]
  | some tv =>
    obtain ⟨t, v⟩ := tv
    simp [process_one, h, observeRoll_fst_length_ne_zero cfg.rollWin hW st.roll v]

theorem C7_last_real_update_witness :
    1 ≤ (⟨600, 30, 200⟩ : EngineConfig).rollWin ∧
      ((process_one ⟨600, 30, 200⟩ fiNone sampleMsg false 5 emptyState).lastReal =
          emptyState.lastReal ∧
        (process_one ⟨600, 30, 200⟩ fiNone sampleMsg true 5 emptyState).lastReal =
          (if (normalizeMsg fiNone sampleMsg).isSome then 5
            else emptyState.lastReal)) :=
  ⟨by norm_num,
    C7_last_real_update ⟨600, 30, 200⟩ (by norm_num) fiNone sampleMsg 5 emptyState⟩

/-- C9: a record with a missing timestamp or sentiment field is dropped
with the whole engine state (every window and the watchdog clock)
unchanged; a record with both required fields but no category field is
processed with the category defaulting to the literal `"other"`. -/
theorem C9_incomplete_records (cfg : EngineConfig) (hW : 1 ≤ cfg.rollWin)
    (fi : List Char → Option PyDateTime) (obj : Msg) (isReal : Bool)
    (now : ℚ) (st : EngineState) :
    (obj.timestamp = none ∨ obj.sentiment = none →
      process_one cfg fi obj isReal now st = st) ∧
      (obj.category = none → (normalizeMsg fi obj).isSome →
        (process_one cfg fi obj isReal now st).catWin =
          dequePush cfg.barSize st.catWin "other") := by
  constructor
  · intro h
    have hnone : normalizeMsg fi obj = none := by
      rcases h with h | h
      · cases hs : obj.sentiment <;> simp [normalizeMsg, h, hs]
      · cases ht : obj.timestamp <;> simp [normalizeMsg, h, ht]
    simp [process_one, hnone]
  · intro hcat hsome
    obtain ⟨⟨t, v⟩, h⟩ := Option.isSome_iff_exists.mp hsome
    simp [process_one, h, hcat,
      observeRoll_fst_length_ne_zero cfg.rollWin hW st.roll v]

theorem C9_incomplete_records_witness :
    (process_one ⟨600, 30, 200⟩ fiNone sampleMsgNoSent true 5 emptyState
        = emptyState) ∧
      (process_one ⟨600, 30, 200⟩ fiNone sampleMsgNoCat true 5 emptyState).catWin
        = dequePush (⟨600, 30, 200⟩ : EngineConfig).barSize emptyState.catWin
            "other" :=
  ⟨(C9_incomplete_records ⟨600, 30, 200⟩ (by norm_num) fiNone sampleMsgNoSent
      true 5 emptyState).1 (Or.inr rfl),
    (C9_incomplete_records ⟨600, 30, 200⟩ (by norm_num) fiNone sampleMsgNoCat
      true 5 emptyState).2 rfl (by decide)⟩

/-- C5 (amended): with the idle threshold
`PROJECT_FAKE_IF_IDLE_SECONDS = 0`, the kafka loop and the file tail
loop never process a synthetic sample — each iteration's state is
obtained by processing the successfully parsed real records alone.
The exception forcing the amendment is file mode's `FileNotFoundError`
handler, which processes synthetic samples unconditionally (see the
counterexample). -/
theorem C5_no_synthetic_when_disabled (cfg : EngineConfig)
    (fi : List Char → Option PyDateTime) (fake : Msg) (now : ℚ)
    (batch : List Msg) (st : EngineState) :
    kafkaIter cfg fi 0 fake now batch st =
        batch.foldl (fun s m => process_one cfg fi m true now s) st ∧
      fileTailIter cfg fi 0 fake now none st = st ∧
      fileTailIter cfg fi 0 fake now (some none) st = st ∧
      ∀ m, fileTailIter cfg fi 0 fake now (some (some m)) st =
        process_one cfg fi m true now st := by
  refine ⟨?_, by simp [fileTailIter], rfl, fun m => rfl⟩
  cases batch <;> simp [kafkaIter]

/-- C5 counterexample: in file mode with the data file missing, the
`FileNotFoundError` handler of `file_loop` processes a synthetic
sample although the idle threshold is 0: starting from the empty
session state, the sentiment window gains a value that no real record
produced — so with fallback disabled the engine still updates its
windows with synthetic samples when the source is unavailable. -/
theorem C5_counterexample :
    (fileMissingIter ⟨600, 30, 200⟩ fiNone 0 sampleSynth 5 emptyState).sent
        = [1/2] ∧
      emptyState.sent = [] := by
  constructor
  · rfl
  · rfl

/-- C10: any string whose first 19 characters form a valid
`YYYY-MM-DDTHH:MM:SS` timestamp and that every earlier branch of
`parse_ts` rejects is accepted by the fallback branch, which builds the
UTC datetime from those 19 characters alone — arbitrary trailing
characters are ignored rather than rejected. -/
theorem C10_fallback_ignores_suffix (fi : List Char → Option PyDateTime)
    (s19 rest : List Char) (hlen : s19.length = 19)
    (hok : (strptimeFixed 'T' s19).isSome)
    (hearly : tryBranches fi (s19 ++ rest) = none) :
    parse_ts fi (s19 ++ rest) =
        (strptimeFixed 'T' s19).map
          (fun dt => { dt with tzOffsetMin := some 0 }) ∧
      (parse_ts fi (s19 ++ rest)).isSome := by
  have htake : (s19 ++ rest).take 19 = s19 := by
    rw [List.take_append_eq_append_take]
    rw [hlen]
    simp [List.take_of_length_le (le_of_eq hlen)]
  constructor
  · unfold parse_ts
    rw [hearly, htake]
  · unfold parse_ts
    rw [hearly, htake]
    simpa using hok

theorem C10_fallback_ignores_suffix_witness :
    (("2025-01-11T18:15:00".data.length = 19 ∧
        (strptimeFixed 'T' "2025-01-11T18:15:00".data).isSome) ∧
      tryBranches fiNone ("2025-01-11T18:15:00".data ++ "@@bogus".data)
        = none) ∧
      (parse_ts fiNone ("2025-01-11T18:15:00".data ++ "@@bogus".data) =
          (strptimeFixed 'T' "2025-01-11T18:15:00".data).map
            (fun dt => { dt with tzOffsetMin := some 0 }) ∧
        (parse_ts fiNone
          ("2025-01-11T18:15:00".data ++ "@@bogus".data)).isSome) :=
  ⟨⟨⟨by decide, by decide⟩, by decide⟩,
    C10_fallback_ignores_suffix fiNone "2025-01-11T18:15:00".data
      "@@bogus".data (by decide) (by decide) (by decide)⟩

theorem firstIdx_append_of_mem {a : String} {l₁ : List String}
    (l₂ : List String) (h : a ∈ l₁) :
    firstIdx a (l₁ ++ l₂) = firstIdx a l₁ := by
  induction l₁ with
  | nil => cases h
  | cons x xs ih =>
    by_cases hx : x = a
    · simp [firstIdx, hx]
    · have hmem : a ∈ xs := by
        rcases List.mem_cons.mp h with h' | h'
        · exact absurd h'.symm hx
        · exact h'
      simp [firstIdx, hx, ih hmem]

theorem firstIdx_lt_length {a : String} {l : List String} (h : a ∈ l) :
    firstIdx a l < l.length := by
  induction l with
  | nil => cases h
  | cons x xs ih =>
    by_cases hx : x = a
    · simp [firstIdx, hx]
    · have hmem : a ∈ xs := by
        rcases List.mem_cons.mp h with h' | h'
        · exact absurd h'.symm hx
        · exact h'
      have := ih hmem
      simp only [firstIdx, if_neg hx, List.length_cons]
      omega

theorem firstIdx_append_of_not_mem {a : String} {l₁ : List String}
    (l₂ : List String) (h : a ∉ l₁) :
    firstIdx a (l₁ ++ l₂) = l₁.length + firstIdx a l₂ := by
  induction l₁ with
  | nil => simp
  | cons x xs ih =>
    have hx : ¬ x = a := fun hxa => h (hxa ▸ List.mem_cons_self x xs)
    have hmem : a ∉ xs := fun hm => h (List.mem_cons_of_mem x hm)
    rw [List.cons_append]
    show (if x = a then 0 else firstIdx a (xs ++ l₂) + 1) =
      (x :: xs).length + firstIdx a l₂
    rw [if_neg hx, ih hmem, List.length_cons]
    omega

theorem mem_firstOccAux (xs : List String) (acc : List String) (a : String) :
    a ∈ xs.foldl (fun acc x => if x ∈ acc then acc else acc ++ [x]) acc ↔
      a ∈ acc ∨ a ∈ xs := by
  induction xs generalizing acc with
  | nil => simp
  | cons x xs ih =>
    simp only [List.foldl_cons]
    rw [ih]
    by_cases hx : x ∈ acc
    · rw [if_pos hx]
      constructor
      · rintro (h | h)
        · exact Or.inl h
        · exact Or.inr (List.mem_cons_of_mem x h)
      · rintro (h | h)
        · exact Or.inl h
        · rcases List.mem_cons.mp h with rfl | h'
          · exact Or.inl hx
          · exact Or.inr h'
    · rw [if_neg hx]
      simp [List.mem_append, List.mem_cons, or_assoc]

theorem nodup_firstOccAux (xs : List String) (acc : List String)
    (h : acc.Nodup) :
    (xs.foldl (fun acc x => if x ∈ acc then acc else acc ++ [x]) acc).Nodup := by
  induction xs generalizing acc with
  | nil => simpa using h
  | cons x xs ih =>
    simp only [List.foldl_cons]
    apply ih
    by_cases hx : x ∈ acc
    · simpa [hx] using h
    · rw [if_neg hx]
      simp [List.nodup_append, h, hx]

theorem mem_firstOccKeys {a : String} {xs : List String} :
    a ∈ firstOccKeys xs ↔ a ∈ xs := by
  simpa using mem_firstOccAux xs [] a

theorem nodup_firstOccKeys (xs : List String) : (firstOccKeys xs).Nodup :=
  nodup_firstOccAux xs [] (by simp)

theorem firstOccKeys_append_singleton (xs : List String) (x : String) :
    firstOccKeys (xs ++ [x]) =
      if x ∈ firstOccKeys xs then firstOccKeys xs
      else firstOccKeys xs ++ [x] := by
  unfold firstOccKeys
  rw [List.foldl_append]
  rfl

/-- The distinct keys of the category window, in first-occurrence
order: their first-occurrence indices are strictly increasing. -/
theorem firstOccKeys_pairwise (xs : List String) :
    (firstOccKeys xs).Pairwise (fun a b => firstIdx a xs < firstIdx b xs) := by
  induction xs using List.reverseRecOn with
  | nil => simp [firstOccKeys]
  | append_singleton xs x ih =>
    rw [firstOccKeys_append_singleton]
    by_cases hx : x ∈ firstOccKeys xs
    · rw [if_pos hx]
      refine ih.imp_of_mem ?_
      intro a b ha hb hab
      rw [firstIdx_append_of_mem _ (mem_firstOccKeys.mp ha),
        firstIdx_append_of_mem _ (mem_firstOccKeys.mp hb)]
      exact hab
    · rw [if_neg hx]
      rw [List.pairwise_append]
      refine ⟨?_, by simp, ?_⟩
      · refine ih.imp_of_mem ?_
        intro a b ha hb hab
        rw [firstIdx_append_of_mem _ (mem_firstOccKeys.mp ha),
          firstIdx_append_of_mem _ (mem_firstOccKeys.mp hb)]
        exact hab
      · intro a ha b hb
        have hb' : b = x := by simpa using hb
        subst hb'
        have hxm : b ∉ xs := fun hm => hx (mem_firstOccKeys.mpr hm)
        rw [firstIdx_append_of_mem _ (mem_firstOccKeys.mp ha),
          firstIdx_append_of_not_mem _ hxm]
        have := firstIdx_lt_length (mem_firstOccKeys.mp ha)
        omega

theorem counterItems_pairwise (xs : List String) :
    (counterItems xs).Pairwise
      (fun p q => firstIdx p.1 xs < firstIdx q.1 xs) := by
  unfold counterItems
  rw [List.pairwise_map]
  exact firstOccKeys_pairwise xs

theorem count_cons_sum (l : List String) (x : String) (xs : List String)
    (hx : x ∈ l) (hnd : l.Nodup) :
    (l.map fun k => (x :: xs).count k).sum =
      (l.map fun k => xs.count k).sum + 1 := by
  induction l with
  | nil => cases hx
  | cons k ks ih =>
    rw [List.nodup_cons] at hnd
    simp only [List.map_cons, List.sum_cons]
    rcases List.mem_cons.mp hx with rfl | hx'
    · rw [List.count_cons_self]
      have hcongr : ∀ k' ∈ ks, (x :: xs).count k' = xs.count k' := by
        intro k' hk'
        apply List.count_cons_of_ne
        intro h
        exact hnd.1 (h ▸ hk')
      rw [List.map_congr_left hcongr]
      omega
    · rw [ih hx' hnd.2]
      have hk : (x :: xs).count k = xs.count k := by
        apply List.count_cons_of_ne
        intro h
        exact hnd.1 (h ▸ hx')
      rw [hk]
      omega

theorem sum_counts_eq_length (l xs : List String) (hnd : l.Nodup)
    (hcov : ∀ x ∈ xs, x ∈ l) :
    (l.map fun k => xs.count k).sum = xs.length := by
  induction xs with
  | nil => simp
  | cons x xs ih =>
    rw [count_cons_sum l x xs (hcov x (List.mem_cons_self x xs)) hnd]
    rw [ih fun y hy => hcov y (List.mem_cons_of_mem x hy)]
    simp

/-- C8: at every point, the per-category counts the frequency-window
counting (`Counter(CAT_WIN)`) produces sum, over all distinct
categories, to the number of labels currently held in the category
window. -/
theorem C8_counts_sum_to_window_length (xs : List String) :
    ((counterItems xs).map Prod.snd).sum = xs.length := by
  unfold counterItems
  rw [List.map_map]
  have hfun : (Prod.snd ∘ fun k => (k, xs.count k)) = fun k => xs.count k := rfl
  rw [hfun]
  exact sum_counts_eq_length _ xs (nodup_firstOccKeys xs)
    fun x hx => mem_firstOccKeys.mpr hx

theorem insertByCount_perm (p : String × Nat) (m : List (String × Nat)) :
    List.Perm (insertByCount p m) (p :: m) := by
  induction m with
  | nil => exact List.Perm.refl _
  | cons q qs ih =>
    unfold insertByCount
    by_cases h : q.2 ≤ p.2
    · rw [if_pos h]
    · rw [if_neg h]
      exact (ih.cons q).trans (List.Perm.swap p q qs)

theorem insertByCount_pairwise {R : String × Nat → String × Nat → Prop}
    {p : String × Nat} {m : List (String × Nat)}
    (hm : m.Pairwise fun a b => b.2 ≤ a.2 ∧ (a.2 = b.2 → R a b))
    (hp : ∀ q ∈ m, R p q) :
    (insertByCount p m).Pairwise
      fun a b => b.2 ≤ a.2 ∧ (a.2 = b.2 → R a b) := by
  induction m with
  | nil => simp [insertByCount]
  | cons q qs ih =>
    rw [List.pairwise_cons] at hm
    obtain ⟨hq, hqs⟩ := hm
    unfold insertByCount
    by_cases h : q.2 ≤ p.2
    · rw [if_pos h]
      rw [List.pairwise_cons]
      refine ⟨?_, List.pairwise_cons.mpr ⟨hq, hqs⟩⟩
      intro r hr
      rcases List.mem_cons.mp hr with rfl | hr'
      · exact ⟨h, fun _ => hp r (List.mem_cons_self r qs)⟩
      · exact ⟨le_trans (hq r hr').1 h,
          fun _ => hp r (List.mem_cons_of_mem q hr')⟩
    · rw [if_neg h]
      rw [List.pairwise_cons]
      constructor
      · intro r hr
        rcases List.mem_cons.mp ((insertByCount_perm p qs).mem_iff.mp hr)
          with hr' | hr'
        · have hlt : p.2 < q.2 := Nat.lt_of_not_le h
          rw [hr']
          exact ⟨Nat.le_of_lt hlt, fun heq => absurd heq (by omega)⟩
        · exact hq r hr'
      · exact ih hqs fun r hr => hp r (List.mem_cons_of_mem q hr)

theorem sortByCountDesc_perm (l : List (String × Nat)) :
    List.Perm (sortByCountDesc l) l := by
  induction l with
  | nil => exact List.Perm.refl _
  | cons p l ih =>
    exact (insertByCount_perm p (sortByCountDesc l)).trans (ih.cons p)

/-- Stability of the descending count sort: a sorted output is
descending in counts and, among entries of equal count, keeps the
input order `R`. -/
theorem sortByCountDesc_pairwise {R : String × Nat → String × Nat → Prop}
    {l : List (String × Nat)} (hl : l.Pairwise R) :
    (sortByCountDesc l).Pairwise
      fun a b => b.2 ≤ a.2 ∧ (a.2 = b.2 → R a b) := by
  induction l with
  | nil => simp [sortByCountDesc]
  | cons p l ih =>
    rw [List.pairwise_cons] at hl
    exact insertByCount_pairwise (ih hl.2)
      fun q hq => hl.1 q ((sortByCountDesc_perm l).mem_iff.mp hq)

/-- C3: `Counter(window).most_common(n)` (the top-N computation of
`_top_n_counts`) returns at most `n` pairs; each pair carries that
category's exact count in the window; pairs are sorted by descending
count with ties broken by first observation within the current window
contents (earliest first); and over window contents
`["a","b","a","c","b","a"]`, the top 2 are `[("a",3), ("b",2)]`. -/
theorem C3_top_n (n : Nat) (xs : List String) :
    (most_common n xs).length ≤ n ∧
      (∀ p ∈ most_common n xs, p.2 = xs.count p.1) ∧
      (most_common n xs).Pairwise (fun p q => q.2 ≤ p.2) ∧
      (most_common n xs).Pairwise
        (fun p q => p.2 = q.2 → firstIdx p.1 xs < firstIdx q.1 xs) ∧
      most_common 2 ["a", "b", "a", "c", "b", "a"] = [("a", 3), ("b", 2)] := by
  have hpair := sortByCountDesc_pairwise (counterItems_pairwise xs)
  have htake : (most_common n xs).Sublist (sortByCountDesc (counterItems xs)) :=
    List.take_sublist n _
  refine ⟨List.length_take_le n _, ?_, ?_, ?_, by decide⟩
  · intro p hp
    have hmem : p ∈ counterItems xs :=
      (sortByCountDesc_perm _).mem_iff.mp (htake.subset hp)
    unfold counterItems at hmem
    obtain ⟨k, _, rfl⟩ := List.mem_map.mp hmem
    rfl
  · exact ((hpair).sublist htake).imp fun h => h.1
  · exact ((hpair).sublist htake).imp fun h => h.2

theorem C3_top_n_witness :
    (most_common 2 ["a", "b", "a", "c", "b", "a"]).length ≤ 2 ∧
      ("a", 3).2 = (["a", "b", "a", "c", "b", "a"] : List String).count ("a", 3).1 ∧
      most_common 2 ["a", "b", "a", "c", "b", "a"] = [("a", 3), ("b", 2)] :=
  ⟨(C3_top_n 2 ["a", "b", "a", "c", "b", "a"]).1,
    (C3_top_n 2 ["a", "b", "a", "c", "b", "a"]).2.1 ("a", 3) (by decide),
    (C3_top_n 2 ["a", "b", "a", "c", "b", "a"]).2.2.2.2⟩

theorem C6_render_scheduler_witness :
    (should_redraw 10 1 0 =
        if 1 / max (10 : ℚ) (1/1000000) ≤ 1 - 0 then ((true : Bool), (1 : ℚ))
        else ((false : Bool), (0 : ℚ))) ∧
      1 / max (10 : ℚ) (1/1000000) = 1 / 10 :=
  ⟨(C6_render_scheduler 10 1 0).1, (C6_render_scheduler 10 1 0).2 (by norm_num)⟩

end Buzzline
